import Mathlib

/-!
Shallow embedding of the PivotPro reshape engine (src/app.py `PivotTransformer`
and src/web_app.py `StreamlitPivotTransformer`).

The two operations modelled are:
* `row_to_column_format` (pivot), src/app.py lines 25-95 / src/web_app.py 55-76,
  embedded as `pivotRC`;
* `column_to_row_format` (melt), src/app.py lines 97-157 / src/web_app.py 79-103,
  embedded as `meltCR`.

Modelling conventions:
* a pandas DataFrame is a `Table`: a header of column names plus rows of scalar
  cells; a cell is a string, a rational number, or a missing value (NaN);
* numeric cells use `ℚ` in place of float64 (every numeric literal appearing in
  the source's data paths is decimal, and no claim depends on binary rounding);
* `astype(str)` is modelled per cell by `scalarToStr` (strings unchanged,
  integers rendered in decimal, NaN rendered `"nan"`);
* `.str.strip()` is `pyStrip` (drop leading/trailing whitespace);
* `pd.to_numeric(errors='coerce').fillna(0)` is `toNum0` (parse-or-zero);
* `DataFrame.pivot` raises `ValueError` on duplicate (index, columns) pairs and
  sorts both the row index and the columns lexicographically; both behaviours
  are embedded (`ReshapeError.duplicateEntries`, `sortStr`);
* `astype(int)` on a float column truncates each value toward zero; embedded
  as `truncQ`;
* exceptions caught by the source's `try`/`except` blocks (which print or
  return an error string) are embedded as `Except.error` values.
-/

namespace PivotPro

/-- Whitespace for Python's `str.strip()` (ASCII whitespace characters). -/
def isPyWS (c : Char) : Bool :=
  c == ' ' || c == '\t' || c == '\n' || c == '\r' || c == '\x0b' || c == '\x0c'

/-- Drop trailing whitespace characters. -/
def dropTrailing (l : List Char) : List Char :=
  (l.reverse.dropWhile isPyWS).reverse

/-- Drop leading and trailing whitespace characters. -/
def stripChars (l : List Char) : List Char :=
  dropTrailing (l.dropWhile isPyWS)

/-- Model of Python `str.strip()` / pandas `.str.strip()`. -/
def pyStrip (s : String) : String :=
  ⟨stripChars s.data⟩

/-- Lexicographic (code-point) strict comparison of character lists, the order
Python uses to compare `str` values (and hence the order pandas sorts by). -/
def strLtb : List Char → List Char → Bool
  | [], [] => false
  | [], _ :: _ => true
  | _ :: _, [] => false
  | a :: as, b :: bs => if a < b then true else if b < a then false else strLtb as bs

/-- Python's `<` on strings. -/
def pyLt (s t : String) : Prop := strLtb s.data t.data = true

/-- Python's `<=` on strings (total order, so `s <= t ↔ ¬ t < s`). -/
def pyLe (s t : String) : Prop := strLtb t.data s.data = false

instance : DecidableRel pyLt := fun s t => by unfold pyLt; infer_instance

instance : DecidableRel pyLe := fun s t => by unfold pyLe; infer_instance

/-- A cell of a DataFrame: a string, a (rational-valued) number, or NaN. -/
inductive Scalar where
  | str (s : String)
  | num (q : ℚ)
  | missing
deriving DecidableEq

/-- Decimal rendering of a rational for `astype(str)`: integers render with no
fractional part (`str(12) = "12"`); non-integer rationals get a fallback
rendering (no claim inspects the rendering of a non-integer cell). -/
def ratStr (q : ℚ) : String :=
  if q.den = 1 then toString q.num else toString q.num ++ "/" ++ toString q.den

/-- Model of `astype(str)` applied to one cell: Python `str()` of the value,
with NaN rendering as the literal string `"nan"`. This per-cell model agrees
with pandas when the column's dtype is int64 (all-integer column: `12` renders
`"12"`) or object (a column mixing strings and NaN: each cell is `str()`-ed,
NaN rendering `"nan"`). It is deliberately not a model of a float64 column,
where pandas would render the cell `12` as `"12.0"`: every concrete table used
in a theorem below keeps integer-rendered cells and NaN in configurations that
`read_csv` realizes as int64 or object columns. -/
def scalarToStr : Scalar → String
  | .str s => s
  | .num q => ratStr q
  | .missing => "nan"

/-- Value of a list of decimal digit characters. -/
def digitsVal (l : List Char) : ℕ :=
  l.foldl (fun a c => 10 * a + (c.toNat - 48)) 0

/-- Parse an unsigned decimal literal (`"12"`, `"3.5"`, `"3."`, `".5"`). -/
def parseDec (l : List Char) : Option ℚ :=
  let ip := l.takeWhile Char.isDigit
  match l.dropWhile Char.isDigit with
  | [] => if ip.isEmpty then none else some (mkRat (digitsVal ip) 1)
  | '.' :: fp =>
    if fp.all Char.isDigit && !(ip.isEmpty && fp.isEmpty) then
      some (mkRat (digitsVal ip * 10 ^ fp.length + digitsVal fp) (10 ^ fp.length))
    else none
  | _ => none

/-- Parse an optionally signed decimal literal. -/
def parseSigned (l : List Char) : Option ℚ :=
  match l with
  | '-' :: rest =>
    match parseDec rest with
    | some q => some (mkRat (-q.num) q.den)
    | none => none
  | '+' :: rest => parseDec rest
  | _ => parseDec l

/-- Model of `pd.to_numeric(errors='coerce').fillna(0)` on one cell: numbers
pass through, NaN and unparseable strings become `0`. -/
def toNum0 : Scalar → ℚ
  | .num q => q
  | .missing => 0
  | .str s => (parseSigned (stripChars s.data)).getD 0

/-- Truncation toward zero, the behaviour of `astype(int)` on float64. -/
def truncQ (q : ℚ) : ℤ :=
  if 0 ≤ q.num then ((q.num.toNat / q.den : ℕ) : ℤ)
  else -(((-q.num).toNat / q.den : ℕ) : ℤ)

/-- A DataFrame: ordered column names and rows of cells. -/
structure Table where
  header : List String
  rows : List (List Scalar)
deriving DecidableEq

/-- Failure outcomes of the two operations (the source reports these by
printing / returning an error message and yielding no result table). -/
inductive ReshapeError where
  | missingColumn (name : String)
  | duplicateEntries
  | duplicateColumn (name : String)
  | noCategoryColumns
deriving DecidableEq

instance {ε α : Type} [DecidableEq ε] [DecidableEq α] : DecidableEq (Except ε α) :=
  fun a b =>
    match a, b with
    | .ok x, .ok y => if h : x = y then isTrue (by rw [h]) else isFalse (by simp [h])
    | .error x, .error y => if h : x = y then isTrue (by rw [h]) else isFalse (by simp [h])
    | .ok _, .error _ => isFalse (by simp)
    | .error _, .ok _ => isFalse (by simp)

/-- One observation: entity (designator), category (project), numeric value. -/
structure Triple where
  designator : String
  project : String
  volume : ℚ
deriving DecidableEq

/-- Index of the first column with the given name. -/
def colIdx : List String → String → Option ℕ
  | [], _ => none
  | a :: l, c => if a = c then some 0 else (colIdx l c).map (· + 1)

/-- The cell of row `r` in the column named `c` (missing if no such column). -/
def cellAt (h : List String) (r : List Scalar) (c : String) : Scalar :=
  match colIdx h c with
  | some i => r.getD i .missing
  | none => .missing

/-- The cleaned observations of a row-format table: entity and category cells
via `astype(str).str.strip()`, value cells via parse-or-zero
(src/app.py lines 50-60, src/web_app.py lines 59-62). -/
def cleanTriples (t : Table) (pc dc vc : String) : List Triple :=
  t.rows.map fun r =>
    ⟨pyStrip (scalarToStr (cellAt t.header r dc)),
     pyStrip (scalarToStr (cellAt t.header r pc)),
     toNum0 (cellAt t.header r vc)⟩

/-- The observations of a row-format table read verbatim (no trimming), used to
state what "the (entity, category, value) triples of `T`" means for input. -/
def rawTriples (t : Table) (pc dc vc : String) : List Triple :=
  t.rows.map fun r =>
    ⟨scalarToStr (cellAt t.header r dc),
     scalarToStr (cellAt t.header r pc),
     toNum0 (cellAt t.header r vc)⟩

/-- The value of the unique observation for `(d, p)`, or `0` (`fillna(0)`). -/
def lookupVal (l : List Triple) (d p : String) : ℚ :=
  match l.find? (fun tr => decide (tr.designator = d) && decide (tr.project = p)) with
  | some tr => tr.volume
  | none => 0

/-- Ascending lexicographic sort of strings (pandas sorts the pivot index and
columns this way). -/
def sortStr (l : List String) : List String :=
  List.insertionSort pyLe l

/-- The distinct designators of the cleaned data, sorted (the pivot row index). -/
def pivotEnts (t : Table) (pc dc vc : String) : List String :=
  sortStr ((cleanTriples t pc dc vc).map (·.designator)).dedup

/-- The distinct projects of the cleaned data, sorted (the pivot columns). -/
def pivotCats (t : Table) (pc dc vc : String) : List String :=
  sortStr ((cleanTriples t pc dc vc).map (·.project)).dedup

/-- The (designator, project) key of each cleaned observation. -/
def pivotPairs (t : Table) (pc dc vc : String) : List (String × String) :=
  (cleanTriples t pc dc vc).map fun tr => (tr.designator, tr.project)

/-- A pivot output cell: looked-up value (or `0`), truncated by `astype(int)`. -/
def pivotVal (t : Table) (pc dc vc : String) (d p : String) : ℤ :=
  truncQ (lookupVal (cleanTriples t pc dc vc) d p)

/-- A pivot output row: the designator followed by one cell per project. -/
def pivotRow (t : Table) (pc dc vc : String) (d : String) : List Scalar :=
  .str d :: (pivotCats t pc dc vc).map fun p => .num ((pivotVal t pc dc vc d p : ℤ) : ℚ)

/-- The successful pivot result (`pivot` + `reset_index` + `fillna(0)` +
`astype(int)`): entity column first, then the sorted project columns. -/
def pivotOk (t : Table) (pc dc vc : String) : Table :=
  ⟨dc :: pivotCats t pc dc vc, (pivotEnts t pc dc vc).map (pivotRow t pc dc vc)⟩

/-- `row_to_column_format(project_col, designator_col, value_col)`:
column-existence checks (src/app.py lines 38-47), then `DataFrame.pivot`
(which raises on a duplicate (designator, project) pair), then `reset_index`
(which raises if a project value collides with the designator column name). -/
def pivotRC (t : Table) (pc dc vc : String) : Except ReshapeError Table :=
  if pc ∈ t.header then
    if dc ∈ t.header then
      if vc ∈ t.header then
        if (pivotPairs t pc dc vc).Nodup then
          if dc ∈ pivotCats t pc dc vc then .error (.duplicateColumn dc)
          else .ok (pivotOk t pc dc vc)
        else .error .duplicateEntries
      else .error (.missingColumn vc)
    else .error (.missingColumn dc)
  else .error (.missingColumn pc)

/-- The sort key order of `sort_values(['project', designator_col])`. -/
def meltLE (a b : Triple) : Prop :=
  pyLt a.project b.project ∨ (a.project = b.project ∧ pyLe a.designator b.designator)

instance : DecidableRel meltLE := fun a b => by unfold meltLE; infer_instance

/-- `pd.melt` output before filtering: one observation per (project column,
input row), in column-major order, cleaned exactly as the source does
(src/app.py lines 126-139, src/web_app.py lines 86-97). -/
def meltRaw (t : Table) (dc : String) : List Triple :=
  (t.header.filter fun c => decide (c ≠ dc)).flatMap fun p =>
    t.rows.map fun r =>
      ⟨pyStrip (scalarToStr (cellAt t.header r dc)), pyStrip p,
       toNum0 (cellAt t.header r p)⟩

/-- Melt observations after dropping zero values (src/app.py line 142). -/
def meltKept (t : Table) (dc : String) : List Triple :=
  (meltRaw t dc).filter fun tr => decide (tr.volume ≠ 0)

/-- Melt observations sorted by (project, designator) (src/app.py line 145). -/
def meltSorted (t : Table) (dc : String) : List Triple :=
  List.insertionSort meltLE (meltKept t dc)

/-- The successful melt result: columns `[designator, project, volume]`. -/
def meltOk (t : Table) (dc : String) : Table :=
  ⟨[dc, "project", "volume"],
   (meltSorted t dc).map fun tr => [.str tr.designator, .str tr.project, .num tr.volume]⟩

/-- `column_to_row_format(designator_col)`: column check (src/app.py 109-111),
no-project-columns check (src/app.py 116-118), then melt/clean/filter/sort. -/
def meltCR (t : Table) (dc : String) : Except ReshapeError Table :=
  if dc ∈ t.header then
    if t.header.filter (fun c => decide (c ≠ dc)) = [] then .error .noCategoryColumns
    else .ok (meltOk t dc)
  else .error (.missingColumn dc)

/-- The cell of the output row whose entity (first) cell is `.str d`, in the
column named `c`. -/
def tableCell (P : Table) (d c : String) : Scalar :=
  match P.rows.find? (fun r => decide (r.getD 0 .missing = .str d)) with
  | some r => cellAt P.header r c
  | none => .missing

/-! ### Order properties of the code-point string order -/

lemma strLtb_nil_right (l : List Char) : strLtb l [] = false := by
  cases l <;> rfl

lemma strLtb_irrefl (l : List Char) : strLtb l l = false := by
  induction l with
  | nil => rfl
  | cons a as ih => simp [strLtb, ih]

lemma strLtb_trans {a : List Char} :
    ∀ {b c : List Char}, strLtb a b = true → strLtb b c = true → strLtb a c = true := by
  induction a with
  | nil =>
    intro b c h1 h2
    cases c with
    | nil => rw [strLtb_nil_right] at h2; exact absurd h2 (by simp)
    | cons z cs => rfl
  | cons x as ih =>
    intro b c h1 h2
    cases b with
    | nil => rw [strLtb_nil_right] at h1; exact absurd h1 (by simp)
    | cons y bs =>
      cases c with
      | nil => rw [strLtb_nil_right] at h2; exact absurd h2 (by simp)
      | cons z cs =>
        rw [strLtb] at h1 h2 ⊢
        by_cases hxy : x < y
        · by_cases hyz : y < z
          · rw [if_pos (lt_trans hxy hyz)]
          · by_cases hzy : z < y
            · rw [if_neg hyz, if_pos hzy] at h2; exact absurd h2 (by simp)
            · have heq : y = z := le_antisymm (not_lt.mp hzy) (not_lt.mp hyz)
              subst heq; rw [if_pos hxy]
        · by_cases hyx : y < x
          · rw [if_neg hxy, if_pos hyx] at h1; exact absurd h1 (by simp)
          · have heq : x = y := le_antisymm (not_lt.mp hyx) (not_lt.mp hxy)
            subst heq
            rw [if_neg hxy, if_neg hyx] at h1
            by_cases hxz : x < z
            · rw [if_pos hxz]
            · by_cases hzx : z < x
              · rw [if_neg hxz, if_pos hzx] at h2; exact absurd h2 (by simp)
              · rw [if_neg hxz, if_neg hzx] at h2 ⊢
                exact ih h1 h2

lemma strLtb_eq_of_not_lt {a : List Char} :
    ∀ {b : List Char}, strLtb a b = false → strLtb b a = false → a = b := by
  induction a with
  | nil =>
    intro b h1 _
    cases b with
    | nil => rfl
    | cons y bs => exact absurd h1 (by simp [strLtb])
  | cons x as ih =>
    intro b h1 h2
    cases b with
    | nil => exact absurd h2 (by simp [strLtb])
    | cons y bs =>
      rw [strLtb] at h1 h2
      by_cases hxy : x < y
      · rw [if_pos hxy] at h1; exact absurd h1 (by simp)
      · by_cases hyx : y < x
        · rw [if_pos hyx] at h2; exact absurd h2 (by simp)
        · have heq : x = y := le_antisymm (not_lt.mp hyx) (not_lt.mp hxy)
          subst heq
          rw [if_neg hxy, if_neg hxy] at h1 h2
          rw [ih h1 h2]

lemma string_data_inj {s t : String} (h : s.data = t.data) : s = t := by
  cases s; cases t; exact congrArg String.mk h

instance : IsTotal String pyLe :=
  ⟨fun s t => by
    unfold pyLe
    cases h1 : strLtb t.data s.data with
    | false => exact Or.inl rfl
    | true =>
      cases h2 : strLtb s.data t.data with
      | false => exact Or.inr rfl
      | true => exact absurd (strLtb_trans h1 h2) (by simp [strLtb_irrefl])⟩

instance : IsTrans String pyLe :=
  ⟨fun a b c hab hbc => by
    unfold pyLe at *
    cases h : strLtb c.data a.data with
    | false => rfl
    | true =>
      cases h2 : strLtb a.data b.data with
      | true => exact absurd (strLtb_trans h h2) (by simp [hbc])
      | false =>
        have heq : a.data = b.data := strLtb_eq_of_not_lt h2 hab
        rw [heq] at h
        exact absurd h (by simp [hbc])⟩

instance : IsAntisymm String pyLe :=
  ⟨fun _ _ hab hba => string_data_inj (strLtb_eq_of_not_lt hba hab)⟩

/-! ### Properties of whitespace stripping -/

lemma dropWhile_head_false (p : Char → Bool) (l : List Char) :
    ∀ x, (l.dropWhile p).head? = some x → p x = false := by
  induction l with
  | nil => intro x hx; simp at hx
  | cons a as ih =>
    intro x hx
    by_cases hpa : p a = true
    · rw [List.dropWhile_cons, if_pos hpa] at hx; exact ih x hx
    · rw [List.dropWhile_cons, if_neg hpa] at hx
      simp at hx
      rw [← hx]
      exact Bool.eq_false_iff.mpr hpa

lemma dropWhile_of_head_false (p : Char → Bool) (l : List Char)
    (h : ∀ x, l.head? = some x → p x = false) : l.dropWhile p = l := by
  cases l with
  | nil => rfl
  | cons a as =>
    rw [List.dropWhile_cons, if_neg]
    simp [h a rfl]

lemma dropWhile_idem (p : Char → Bool) (l : List Char) :
    (l.dropWhile p).dropWhile p = l.dropWhile p :=
  dropWhile_of_head_false p _ (dropWhile_head_false p l)

lemma dropTrailing_idem (l : List Char) : dropTrailing (dropTrailing l) = dropTrailing l := by
  unfold dropTrailing
  rw [List.reverse_reverse, dropWhile_idem]

lemma dropTrailing_prefixOf (l : List Char) : dropTrailing l <+: l := by
  have h := List.reverse_prefix.mpr (List.dropWhile_suffix (l := l.reverse) isPyWS)
  rwa [List.reverse_reverse] at h

lemma prefix_head_eq {l₁ l₂ : List Char} {x : Char} (h : l₁ <+: l₂)
    (hx : l₁.head? = some x) : l₂.head? = some x := by
  obtain ⟨t, rfl⟩ := h
  cases l₁ with
  | nil => simp at hx
  | cons a as => simpa using hx

lemma stripChars_idem (l : List Char) : stripChars (stripChars l) = stripChars l := by
  unfold stripChars
  rw [dropWhile_of_head_false isPyWS (dropTrailing (l.dropWhile isPyWS))
    (fun x hx => dropWhile_head_false isPyWS l x
      (prefix_head_eq (dropTrailing_prefixOf _) hx)),
    dropTrailing_idem]

lemma pyStrip_idem (s : String) : pyStrip (pyStrip s) = pyStrip s :=
  string_data_inj (stripChars_idem s.data)

/-! ### Sorting and dedup helpers -/

lemma sortStr_perm (l : List String) : List.Perm (sortStr l) l :=
  List.perm_insertionSort _ _

lemma mem_sortStr {l : List String} {x : String} : x ∈ sortStr l ↔ x ∈ l :=
  (sortStr_perm l).mem_iff

lemma sortStr_nodup {l : List String} (h : l.Nodup) : (sortStr l).Nodup :=
  (sortStr_perm l).nodup_iff.mpr h

lemma sortStr_sorted (l : List String) : List.Sorted pyLe (sortStr l) :=
  List.sorted_insertionSort _ _

lemma sortStr_eq_of_perm {l₁ l₂ : List String} (h : List.Perm l₁ l₂) : sortStr l₁ = sortStr l₂ :=
  List.eq_of_perm_of_sorted ((sortStr_perm l₁).trans (h.trans (sortStr_perm l₂).symm))
    (sortStr_sorted l₁) (sortStr_sorted l₂)

lemma mem_pivotEnts {t : Table} {pc dc vc d} :
    d ∈ pivotEnts t pc dc vc ↔ d ∈ (cleanTriples t pc dc vc).map (·.designator) := by
  unfold pivotEnts
  rw [mem_sortStr, List.mem_dedup]

lemma mem_pivotCats {t : Table} {pc dc vc p} :
    p ∈ pivotCats t pc dc vc ↔ p ∈ (cleanTriples t pc dc vc).map (·.project) := by
  unfold pivotCats
  rw [mem_sortStr, List.mem_dedup]

lemma pivotEnts_nodup (t : Table) (pc dc vc : String) : (pivotEnts t pc dc vc).Nodup :=
  sortStr_nodup (List.nodup_dedup _)

lemma pivotCats_nodup (t : Table) (pc dc vc : String) : (pivotCats t pc dc vc).Nodup :=
  sortStr_nodup (List.nodup_dedup _)

lemma pivotEnts_sorted (t : Table) (pc dc vc : String) :
    List.Sorted pyLe (pivotEnts t pc dc vc) :=
  sortStr_sorted _

lemma pivotCats_sorted (t : Table) (pc dc vc : String) :
    List.Sorted pyLe (pivotCats t pc dc vc) :=
  sortStr_sorted _

lemma pyStrip_of_mem_pivotEnts {t : Table} {pc dc vc d} (h : d ∈ pivotEnts t pc dc vc) :
    pyStrip d = d := by
  rw [mem_pivotEnts] at h
  obtain ⟨tr, htr, rfl⟩ := List.mem_map.mp h
  obtain ⟨r, _, rfl⟩ := List.mem_map.mp htr
  exact pyStrip_idem _

lemma pyStrip_of_mem_pivotCats {t : Table} {pc dc vc p} (h : p ∈ pivotCats t pc dc vc) :
    pyStrip p = p := by
  rw [mem_pivotCats] at h
  obtain ⟨tr, htr, rfl⟩ := List.mem_map.mp h
  obtain ⟨r, _, rfl⟩ := List.mem_map.mp htr
  exact pyStrip_idem _

/-! ### Cell access helpers -/

lemma cellAt_head (hd : String) (rest : List String) (x : Scalar) (r : List Scalar) :
    cellAt (hd :: rest) (x :: r) hd = x := by
  unfold cellAt colIdx
  rw [if_pos rfl]
  rfl

lemma cellAt_cons_ne {hd c : String} (rest : List String) (x : Scalar) (r : List Scalar)
    (hne : hd ≠ c) : cellAt (hd :: rest) (x :: r) c = cellAt rest r c := by
  have hcol : colIdx (hd :: rest) c = (colIdx rest c).map (· + 1) := by
    rw [colIdx, if_neg hne]
  unfold cellAt
  rw [hcol]
  cases h : colIdx rest c with
  | none => simp
  | some i => simp

lemma cellAt_map_of_mem {l : List String} {p : String} (g : String → Scalar) (h : p ∈ l) :
    cellAt l (l.map g) p = g p := by
  induction l with
  | nil => simp at h
  | cons a as ih =>
    by_cases hap : a = p
    · subst hap
      exact cellAt_head a as (g a) (as.map g)
    · rw [List.map_cons, cellAt_cons_ne as (g a) (as.map g) hap]
      exact ih ((List.mem_cons.mp h).resolve_left (fun hh => hap hh.symm))

/-! ### Value lookup -/

lemma lookupVal_eq_of_mem {l : List Triple}
    (hnd : (l.map fun tr => (tr.designator, tr.project)).Nodup) {d p : String} {v : ℚ}
    (hm : (⟨d, p, v⟩ : Triple) ∈ l) : lookupVal l d p = v := by
  induction l with
  | nil => simp at hm
  | cons a as ih =>
    obtain ⟨ad, ap, av⟩ := a
    by_cases hpa : ad = d ∧ ap = p
    · obtain ⟨rfl, rfl⟩ := hpa
      unfold lookupVal
      rw [List.find?_cons_of_pos _ (by simp)]
      rcases List.mem_cons.mp hm with heq | htail
      · rw [← heq]
      · exfalso
        rw [List.map_cons, List.nodup_cons] at hnd
        exact hnd.1 (List.mem_map.mpr ⟨⟨ad, ap, v⟩, htail, rfl⟩)
    · unfold lookupVal
      rw [List.find?_cons_of_neg _ (by simpa using hpa)]
      have hm' : (⟨d, p, v⟩ : Triple) ∈ as := by
        rcases List.mem_cons.mp hm with heq | htail
        · injection heq with h1 h2 h3
          exact absurd ⟨h1.symm, h2.symm⟩ hpa
        · exact htail
      exact ih (List.nodup_cons.mp (by rwa [List.map_cons] at hnd)).2 hm'

lemma lookupVal_eq_zero {l : List Triple} {d p : String}
    (h : ∀ v, (⟨d, p, v⟩ : Triple) ∉ l) : lookupVal l d p = 0 := by
  induction l with
  | nil => rfl
  | cons a as ih =>
    obtain ⟨ad, ap, av⟩ := a
    by_cases hpa : ad = d ∧ ap = p
    · obtain ⟨rfl, rfl⟩ := hpa
      exact absurd (List.mem_cons_self _ _) (h av)
    · unfold lookupVal
      rw [List.find?_cons_of_neg _ (by simpa using hpa)]
      exact ih fun v hv => h v (List.mem_cons_of_mem _ hv)

/-! ### Truncation -/

lemma truncQ_intCast (n : ℤ) : truncQ ((n : ℤ) : ℚ) = n := by
  unfold truncQ
  rw [Rat.num_intCast, Rat.den_intCast]
  split_ifs with h
  · simp [Nat.div_one, Int.toNat_of_nonneg h]
  · simp [Nat.div_one]
    omega

lemma truncQ_eq_num_of_den_one {q : ℚ} (h : q.den = 1) : truncQ q = q.num := by
  unfold truncQ
  rw [h]
  split_ifs with h2
  · simp [Nat.div_one, Int.toNat_of_nonneg h2]
  · simp [Nat.div_one]
    omega

lemma intCast_num_of_den_one {q : ℚ} (h : q.den = 1) : ((q.num : ℤ) : ℚ) = q := by
  apply Rat.ext
  · rw [Rat.num_intCast]
  · rw [Rat.den_intCast, h]

lemma truncQ_cast_of_den_one {q : ℚ} (h : q.den = 1) : ((truncQ q : ℤ) : ℚ) = q := by
  rw [truncQ_eq_num_of_den_one h]
  exact intCast_num_of_den_one h

lemma truncQ_zero : truncQ 0 = 0 := by decide

/-! ### Success characterizations of the two operations -/

lemma pivotRC_ok_iff {t : Table} {pc dc vc : String} {P : Table} :
    pivotRC t pc dc vc = .ok P ↔
      pc ∈ t.header ∧ dc ∈ t.header ∧ vc ∈ t.header ∧ (pivotPairs t pc dc vc).Nodup ∧
        dc ∉ pivotCats t pc dc vc ∧ P = pivotOk t pc dc vc := by
  unfold pivotRC
  split_ifs with hpc hdc hvc hnd hcat
  · simp [hcat]
  · simp only [Except.ok.injEq]
    constructor
    · intro h
      exact ⟨hpc, hdc, hvc, hnd, hcat, h.symm⟩
    · intro h
      exact h.2.2.2.2.2.symm
  · simp [hnd]
  · simp [hvc]
  · simp [hdc]
  · simp [hpc]

lemma meltCR_ok_iff {t : Table} {dc : String} {M : Table} :
    meltCR t dc = .ok M ↔
      dc ∈ t.header ∧ t.header.filter (fun c => decide (c ≠ dc)) ≠ [] ∧ M = meltOk t dc := by
  unfold meltCR
  split_ifs with hdc hemp
  · constructor
    · intro h
      exact absurd h (by simp)
    · intro h
      exact absurd hemp h.2.1
  · simp only [Except.ok.injEq]
    constructor
    · intro h
      exact ⟨hdc, hemp, h.symm⟩
    · intro h
      exact h.2.2.symm
  · simp [hdc]

/-! ### Structure of a melt applied to a pivot result -/

lemma filter_ne_of_not_mem {l : List String} {dc : String} (h : dc ∉ l) :
    l.filter (fun c => decide (c ≠ dc)) = l :=
  List.filter_eq_self.mpr fun a ha => by
    simp only [decide_eq_true_eq]
    intro heq
    exact h (heq ▸ ha)

lemma filter_header_pivotOk {t : Table} {pc dc vc : String}
    (hcat : dc ∉ pivotCats t pc dc vc) :
    (pivotOk t pc dc vc).header.filter (fun c => decide (c ≠ dc)) = pivotCats t pc dc vc := by
  show List.filter _ (dc :: pivotCats t pc dc vc) = _
  rw [List.filter_cons, if_neg (by simp : ¬(decide (dc ≠ dc) = true))]
  exact filter_ne_of_not_mem hcat

lemma pivotRow_cellAt_dc (t : Table) (pc dc vc d : String) :
    cellAt (dc :: pivotCats t pc dc vc) (pivotRow t pc dc vc d) dc = .str d := by
  unfold pivotRow
  exact cellAt_head _ _ _ _

lemma pivotRow_cellAt_cat {t : Table} {pc dc vc d p : String}
    (hp : p ∈ pivotCats t pc dc vc) (hne : dc ≠ p) :
    cellAt (dc :: pivotCats t pc dc vc) (pivotRow t pc dc vc d) p =
      .num ((pivotVal t pc dc vc d p : ℤ) : ℚ) := by
  unfold pivotRow
  rw [cellAt_cons_ne _ _ _ hne]
  exact cellAt_map_of_mem _ hp

lemma meltRaw_pivotOk {t : Table} {pc dc vc : String}
    (hcat : dc ∉ pivotCats t pc dc vc) :
    meltRaw (pivotOk t pc dc vc) dc =
      (pivotCats t pc dc vc).flatMap fun p =>
        (pivotEnts t pc dc vc).map fun d =>
          (⟨d, p, ((pivotVal t pc dc vc d p : ℤ) : ℚ)⟩ : Triple) := by
  unfold meltRaw
  rw [filter_header_pivotOk hcat]
  apply List.flatMap_congr
  intro p hp
  show ((pivotEnts t pc dc vc).map (pivotRow t pc dc vc)).map _ = _
  rw [List.map_map]
  apply List.map_congr_left
  intro d hd
  have hne : dc ≠ p := fun h => hcat (h ▸ hp)
  show (⟨pyStrip (scalarToStr (cellAt (dc :: pivotCats t pc dc vc) (pivotRow t pc dc vc d) dc)),
        pyStrip p,
        toNum0 (cellAt (dc :: pivotCats t pc dc vc) (pivotRow t pc dc vc d) p)⟩ : Triple) = _
  rw [pivotRow_cellAt_dc, pivotRow_cellAt_cat hp hne]
  show (⟨pyStrip d, pyStrip p, _⟩ : Triple) = _
  rw [pyStrip_of_mem_pivotEnts hd, pyStrip_of_mem_pivotCats hp]
  rfl

lemma mem_meltKept_pivotOk {t : Table} {pc dc vc : String}
    (hcat : dc ∉ pivotCats t pc dc vc) {tr : Triple} :
    tr ∈ meltKept (pivotOk t pc dc vc) dc ↔
      tr.designator ∈ pivotEnts t pc dc vc ∧ tr.project ∈ pivotCats t pc dc vc ∧
        tr.volume = ((pivotVal t pc dc vc tr.designator tr.project : ℤ) : ℚ) ∧
        tr.volume ≠ 0 := by
  obtain ⟨d0, p0, v0⟩ := tr
  unfold meltKept
  rw [List.mem_filter, meltRaw_pivotOk hcat, List.mem_flatMap]
  simp only [List.mem_map, decide_eq_true_eq, Triple.mk.injEq]
  constructor
  · rintro ⟨⟨p, hp, d, hd, rfl, rfl, rfl⟩, hne⟩
    exact ⟨hd, hp, rfl, hne⟩
  · rintro ⟨hd, hp, hv, hne⟩
    exact ⟨⟨p0, hp, d0, hd, rfl, rfl, hv.symm⟩, hne⟩

lemma meltRaw_pivotOk_pairs_nodup {t : Table} {pc dc vc : String}
    (hcat : dc ∉ pivotCats t pc dc vc) :
    ((meltRaw (pivotOk t pc dc vc) dc).map fun tr => (tr.designator, tr.project)).Nodup := by
  rw [meltRaw_pivotOk hcat, List.map_flatMap]
  rw [List.nodup_flatMap]
  constructor
  · intro p _
    rw [List.map_map]
    exact (pivotEnts_nodup t pc dc vc).map fun d1 d2 h => by
      simpa using congrArg Prod.fst h
  · have := pivotCats_nodup t pc dc vc
    refine List.Pairwise.imp ?_ this
    intro p1 p2 hne
    simp only [Function.onFun, List.map_map]
    intro x hx1 hx2
    obtain ⟨d1, _, rfl⟩ := List.mem_map.mp hx1
    obtain ⟨d2, _, heq⟩ := List.mem_map.mp hx2
    exact hne (by simpa using (congrArg Prod.snd heq).symm)

lemma meltKept_pivotOk_pairs_nodup {t : Table} {pc dc vc : String}
    (hcat : dc ∉ pivotCats t pc dc vc) :
    ((meltKept (pivotOk t pc dc vc) dc).map fun tr => (tr.designator, tr.project)).Nodup :=
  ((List.filter_sublist _).map _).nodup (meltRaw_pivotOk_pairs_nodup hcat)

lemma meltKept_pivotOk_nodup {t : Table} {pc dc vc : String}
    (hcat : dc ∉ pivotCats t pc dc vc) :
    (meltKept (pivotOk t pc dc vc) dc).Nodup :=
  (meltKept_pivotOk_pairs_nodup hcat).of_map _

lemma kept_perm_clean {t : Table} {pc dc vc : String}
    (hnd : (pivotPairs t pc dc vc).Nodup)
    (hcat : dc ∉ pivotCats t pc dc vc)
    (hval : ∀ tr ∈ cleanTriples t pc dc vc, (tr.volume).den = 1 ∧ tr.volume ≠ 0) :
    List.Perm (meltKept (pivotOk t pc dc vc) dc) (cleanTriples t pc dc vc) := by
  have hclean_nodup : (cleanTriples t pc dc vc).Nodup := List.Nodup.of_map _ hnd
  rw [List.perm_ext_iff_of_nodup (meltKept_pivotOk_nodup hcat) hclean_nodup]
  intro tr
  obtain ⟨d0, p0, v0⟩ := tr
  rw [mem_meltKept_pivotOk hcat]
  dsimp only
  constructor
  · rintro ⟨hd, hp, hv, hne⟩
    by_cases hex : ∃ v, (⟨d0, p0, v⟩ : Triple) ∈ cleanTriples t pc dc vc
    · obtain ⟨v, hvmem⟩ := hex
      have hlv : lookupVal (cleanTriples t pc dc vc) d0 p0 = v :=
        lookupVal_eq_of_mem hnd hvmem
      have hden := hval _ hvmem
      have hv0 : v0 = v := by
        rw [hv]
        unfold pivotVal
        rw [hlv]
        exact truncQ_cast_of_den_one hden.1
      rw [hv0]
      exact hvmem
    · push_neg at hex
      have hlv : lookupVal (cleanTriples t pc dc vc) d0 p0 = 0 :=
        lookupVal_eq_zero hex
      exfalso
      apply hne
      rw [hv]
      unfold pivotVal
      rw [hlv, truncQ_zero]
      exact Int.cast_zero
  · intro htr
    have hd : d0 ∈ pivotEnts t pc dc vc :=
      mem_pivotEnts.mpr (List.mem_map.mpr ⟨_, htr, rfl⟩)
    have hp : p0 ∈ pivotCats t pc dc vc :=
      mem_pivotCats.mpr (List.mem_map.mpr ⟨_, htr, rfl⟩)
    have hlv : lookupVal (cleanTriples t pc dc vc) d0 p0 = v0 :=
      lookupVal_eq_of_mem hnd htr
    have hden := hval _ htr
    refine ⟨hd, hp, ?_, hden.2⟩
    unfold pivotVal
    rw [hlv]
    exact (truncQ_cast_of_den_one hden.1).symm

lemma rawTriples_meltOk (t : Table) {dc : String} (h1 : dc ≠ "project")
    (h2 : dc ≠ "volume") :
    rawTriples (meltOk t dc) "project" dc "volume" = meltSorted t dc := by
  unfold rawTriples meltOk
  rw [List.map_map]
  have hfun : ((fun r =>
      (⟨scalarToStr (cellAt [dc, "project", "volume"] r dc),
        scalarToStr (cellAt [dc, "project", "volume"] r "project"),
        toNum0 (cellAt [dc, "project", "volume"] r "volume")⟩ : Triple)) ∘
      (fun tr : Triple => [Scalar.str tr.designator, Scalar.str tr.project, Scalar.num tr.volume]))
      = id := by
    funext tr
    obtain ⟨d0, p0, v0⟩ := tr
    show (⟨scalarToStr
        (cellAt (dc :: ["project", "volume"]) (.str d0 :: [.str p0, .num v0]) dc), _, _⟩ : Triple) = _
    rw [cellAt_head]
    rw [cellAt_cons_ne _ _ _ h1]
    rw [cellAt_cons_ne _ _ _ h2]
    rw [cellAt_cons_ne _ _ _ (show ("project" : String) ≠ "volume" by decide)]
    rw [cellAt_head, cellAt_head]
    rfl
  rw [hfun, List.map_id]

lemma meltSorted_perm_kept (t : Table) (dc : String) :
    List.Perm (meltSorted t dc) (meltKept t dc) :=
  List.perm_insertionSort _ _

lemma pivotCats_ne_nil {t : Table} {pc dc vc : String} (h : t.rows ≠ []) :
    pivotCats t pc dc vc ≠ [] := by
  unfold pivotCats
  intro hnil
  have hlen := (sortStr_perm (((cleanTriples t pc dc vc).map (·.project)).dedup)).length_eq
  rw [hnil] at hlen
  have hd : ((cleanTriples t pc dc vc).map (·.project)).dedup = [] :=
    List.eq_nil_of_length_eq_zero hlen.symm
  rw [List.dedup_eq_nil, List.map_eq_nil_iff] at hd
  unfold cleanTriples at hd
  rw [List.map_eq_nil_iff] at hd
  exact h hd

lemma meltCR_pivotOk_ok {t : Table} {pc dc vc : String}
    (hcat : dc ∉ pivotCats t pc dc vc) (hne : pivotCats t pc dc vc ≠ []) :
    meltCR (pivotOk t pc dc vc) dc = .ok (meltOk (pivotOk t pc dc vc) dc) := by
  rw [meltCR_ok_iff]
  refine ⟨?_, ?_, rfl⟩
  · show dc ∈ dc :: pivotCats t pc dc vc
    exact List.mem_cons_self _ _
  · rw [filter_header_pivotOk hcat]
    exact hne

/-! ### Concrete tables used by the claim theorems -/

/-- A row table with a duplicate (entity, category) pair, later value `2`. -/
def tDup : Table :=
  ⟨["project", "designator", "volume"],
   [[.str "X", .str "A", .num 1], [.str "X", .str "A", .num 2]]⟩

/-- A row table with an untrimmed entity cell and a fractional value `3/2`. -/
def tFrac : Table :=
  ⟨["project", "designator", "volume"],
   [[.str "X", .str " A ", .num (mkRat 3 2)]]⟩

/-- The spec's example row table `[(A,X,2),(A,Y,14),(B,X,1)]`. -/
def tGood : Table :=
  ⟨["project", "designator", "volume"],
   [[.str "X", .str "A", .num 2], [.str "Y", .str "A", .num 14], [.str "X", .str "B", .num 1]]⟩

/-! ### C1 -/

/-- C1 counterexample: on a table whose two rows share the (entity, category)
pair (A, X), `row_to_column_format` does not succeed with the later value —
`DataFrame.pivot` raises on duplicate (index, columns) pairs, so the operation
fails (the source catches the exception and returns no table). -/
theorem c1_counterexample :
    pivotRC tDup "project" "designator" "volume" = .error .duplicateEntries := by decide

/-- C1 (amended): whenever the cleaned rows contain a duplicate (entity,
category) pair, `row_to_column_format` fails with a duplicate-entries error
instead of applying any last-write-wins policy. -/
theorem c1_pivot_duplicate_pair_fails {t : Table} {pc dc vc : String}
    (hpc : pc ∈ t.header) (hdc : dc ∈ t.header) (hvc : vc ∈ t.header)
    (hnd : ¬ (pivotPairs t pc dc vc).Nodup) :
    pivotRC t pc dc vc = .error .duplicateEntries := by
  unfold pivotRC
  rw [if_pos hpc, if_pos hdc, if_pos hvc, if_neg hnd]

/-- C1 witness: the amended statement applied to the duplicate-pair table. -/
theorem c1_pivot_duplicate_pair_fails_witness :
    pivotRC tDup "project" "designator" "volume" = .error .duplicateEntries :=
  c1_pivot_duplicate_pair_fails (by decide) (by decide) (by decide) (by decide)

/-! ### C2 -/

/-- C2 counterexample: for the one-row table with entity `" A "` and value
`3/2` (no duplicate pairs, no zero values), melt-after-pivot yields the triple
(A, X, 1) while the table's own triples are (" A ", X, 3/2): the pivot trims
the entity and truncates the value, so the round-trip does not reproduce the
input triples. -/
theorem c2_counterexample :
    (pivotRC tFrac "project" "designator" "volume").bind (fun p => meltCR p "designator") =
      .ok ⟨["designator", "project", "volume"], [[.str "A", .str "X", .num 1]]⟩ ∧
    rawTriples tFrac "project" "designator" "volume" = [⟨" A ", "X", mkRat 3 2⟩] ∧
    rawTriples ⟨["designator", "project", "volume"], [[.str "A", .str "X", .num 1]]⟩
      "project" "designator" "volume" = [⟨"A", "X", 1⟩] ∧
    ([⟨"A", "X", (1 : ℚ)⟩] : List Triple) ≠ [⟨" A ", "X", mkRat 3 2⟩] := by decide

/-- C2 (amended): for a nonempty row table on which the pivot succeeds (hence
no duplicate cleaned (entity, category) pair) and whose cleaned values are all
nonzero whole numbers, `column_to_row_format (row_to_column_format T)`
reproduces exactly the cleaned (trimmed-entity, trimmed-category, value)
triples of `T`, up to row order. -/
theorem c2_pivot_melt_roundtrip {t : Table} {pc dc vc : String} {P : Table}
    (hok : pivotRC t pc dc vc = .ok P)
    (hrows : t.rows ≠ [])
    (hval : ∀ tr ∈ cleanTriples t pc dc vc, (tr.volume).den = 1 ∧ tr.volume ≠ 0)
    (hdp : dc ≠ "project") (hdv : dc ≠ "volume") :
    ∃ M, meltCR P dc = .ok M ∧
      List.Perm (rawTriples M "project" dc "volume") (cleanTriples t pc dc vc) := by
  obtain ⟨_, _, _, hnd, hcat, rfl⟩ := pivotRC_ok_iff.mp hok
  refine ⟨meltOk (pivotOk t pc dc vc) dc,
    meltCR_pivotOk_ok hcat (pivotCats_ne_nil hrows), ?_⟩
  rw [rawTriples_meltOk _ hdp hdv]
  exact (meltSorted_perm_kept _ _).trans (kept_perm_clean hnd hcat hval)

/-- C2 witness: the amended round-trip applied to the spec's example table. -/
theorem c2_pivot_melt_roundtrip_witness :
    pivotRC tGood "project" "designator" "volume" =
      .ok (pivotOk tGood "project" "designator" "volume") ∧
    ∃ M, meltCR (pivotOk tGood "project" "designator" "volume") "designator" = .ok M ∧
      List.Perm (rawTriples M "project" "designator" "volume")
        (cleanTriples tGood "project" "designator" "volume") :=
  ⟨by decide, c2_pivot_melt_roundtrip (by decide) (by decide) (by decide)
    (by decide) (by decide)⟩

/-! ### C8 -/

/-- C8: when a requested column name is absent from the input header,
`row_to_column_format` fails with a missing-column error naming that column
(the source checks project, then designator, then value, src/app.py 38-47),
and produces no result table. -/
theorem c8_pivot_missing_column {t : Table} {pc dc vc : String} :
    (pc ∉ t.header → pivotRC t pc dc vc = .error (.missingColumn pc)) ∧
    (pc ∈ t.header → dc ∉ t.header → pivotRC t pc dc vc = .error (.missingColumn dc)) ∧
    (pc ∈ t.header → dc ∈ t.header → vc ∉ t.header →
      pivotRC t pc dc vc = .error (.missingColumn vc)) := by
  refine ⟨fun h1 => ?_, fun h1 h2 => ?_, fun h1 h2 h3 => ?_⟩
  · unfold pivotRC
    rw [if_neg h1]
  · unfold pivotRC
    rw [if_pos h1, if_neg h2]
  · unfold pivotRC
    rw [if_pos h1, if_pos h2, if_neg h3]

/-- C8 witness: the spec's example, `valueColumn = "nonexistent"` on a valid
table yields `MissingColumn("nonexistent")`. -/
theorem c8_pivot_missing_column_witness :
    pivotRC tGood "project" "designator" "nonexistent" =
      .error (.missingColumn "nonexistent") :=
  c8_pivot_missing_column.2.2 (by decide) (by decide) (by decide)

/-! ### C3 -/

/-- A row table whose single value is the fractional number `3/2`. -/
def tHalf : Table :=
  ⟨["project", "designator", "volume"],
   [[.str "X", .str "A", .num (mkRat 3 2)]]⟩

/-- C3: the code does not keep a column as floating point when it contains a
fractional value. The comment at src/app.py line 71 ("Convert to int only if
all values are whole numbers") and the warning at line 79 announce the
specified behaviour, but `astype(int)` never raises on fractional float64
values — it truncates them — so the cleaned value `3/2` comes out of the
pivot as `1`. -/
theorem c3_truncation_bug :
    cleanTriples tHalf "project" "designator" "volume" = [⟨"A", "X", mkRat 3 2⟩] ∧
    pivotRC tHalf "project" "designator" "volume" =
      .ok ⟨["designator", "X"], [[.str "A", .num 1]]⟩ ∧
    (mkRat 3 2 : ℚ) ≠ 1 := by decide

/-! ### C4 -/

/-- A row table whose first-seen category order is [Y, X] and first-seen
entity order is [B, A]. -/
def tOrder : Table :=
  ⟨["project", "designator", "volume"],
   [[.str "Y", .str "B", .num 1], [.str "X", .str "A", .num 2]]⟩

/-- C4 counterexample: on input with first-seen category order [Y, X] and
first-seen entity order [B, A], the pivot emits columns [X, Y] and rows
[A, B] — lexicographically sorted, not first-seen order. -/
theorem c4_counterexample :
    pivotRC tOrder "project" "designator" "volume" =
      .ok ⟨["designator", "X", "Y"],
        [[.str "A", .num 2, .num 0], [.str "B", .num 0, .num 1]]⟩ ∧
    (["designator", "X", "Y"] : List String) ≠ ["designator", "Y", "X"] ∧
    ([[.str "A", .num 2, .num 0], [.str "B", .num 0, .num 1]] : List (List Scalar)) ≠
      [[.str "B", .num 0, .num 1], [.str "A", .num 2, .num 0]] := by decide

/-- C4 (amended): in a successful pivot the entity column is first; the
category columns are the distinct cleaned categories in ascending
lexicographic order; the rows are the distinct cleaned entities in ascending
lexicographic order (not first-seen order). -/
theorem c4_pivot_output_order {t : Table} {pc dc vc : String} {P : Table}
    (hok : pivotRC t pc dc vc = .ok P) :
    P.header = dc :: pivotCats t pc dc vc ∧
    List.Sorted pyLe (pivotCats t pc dc vc) ∧
    (∀ c, c ∈ pivotCats t pc dc vc ↔ c ∈ (cleanTriples t pc dc vc).map (·.project)) ∧
    P.rows.map (fun r => r.getD 0 .missing) = (pivotEnts t pc dc vc).map Scalar.str ∧
    List.Sorted pyLe (pivotEnts t pc dc vc) ∧
    (∀ e, e ∈ pivotEnts t pc dc vc ↔ e ∈ (cleanTriples t pc dc vc).map (·.designator)) := by
  obtain ⟨_, _, _, _, _, rfl⟩ := pivotRC_ok_iff.mp hok
  refine ⟨rfl, pivotCats_sorted t pc dc vc, fun c => mem_pivotCats, ?_,
    pivotEnts_sorted t pc dc vc, fun e => mem_pivotEnts⟩
  show ((pivotEnts t pc dc vc).map (pivotRow t pc dc vc)).map _ = _
  rw [List.map_map]
  exact List.map_congr_left fun d _ => rfl

/-- C4 witness: the amended ordering statement applied to `tOrder`. -/
theorem c4_pivot_output_order_witness :
    (pivotOk tOrder "project" "designator" "volume").header =
      "designator" :: pivotCats tOrder "project" "designator" "volume" ∧
    List.Sorted pyLe (pivotCats tOrder "project" "designator" "volume") ∧
    (∀ c, c ∈ pivotCats tOrder "project" "designator" "volume" ↔
      c ∈ (cleanTriples tOrder "project" "designator" "volume").map (·.project)) ∧
    (pivotOk tOrder "project" "designator" "volume").rows.map (fun r => r.getD 0 .missing) =
      (pivotEnts tOrder "project" "designator" "volume").map Scalar.str ∧
    List.Sorted pyLe (pivotEnts tOrder "project" "designator" "volume") ∧
    (∀ e, e ∈ pivotEnts tOrder "project" "designator" "volume" ↔
      e ∈ (cleanTriples tOrder "project" "designator" "volume").map (·.designator)) :=
  c4_pivot_output_order (by decide)

/-! ### C5 -/

lemma find?_str_eq_self {l : List String} {d : String} (h : d ∈ l) :
    l.find? (fun x => decide (Scalar.str x = Scalar.str d)) = some d := by
  induction l with
  | nil => simp at h
  | cons a as ih =>
    by_cases ha : a = d
    · subst ha
      rw [List.find?_cons_of_pos _ (by simp)]
    · rw [List.find?_cons_of_neg _ (by simp [ha])]
      exact ih ((List.mem_cons.mp h).resolve_left fun hh => ha hh.symm)

lemma find?_rows_pivotOk {t : Table} {pc dc vc d : String}
    (hd : d ∈ pivotEnts t pc dc vc) :
    ((pivotEnts t pc dc vc).map (pivotRow t pc dc vc)).find?
      (fun r => decide (r.getD 0 .missing = .str d)) = some (pivotRow t pc dc vc d) := by
  rw [List.find?_map]
  have hcomp : ((fun r : List Scalar => decide (r.getD 0 .missing = Scalar.str d)) ∘
      pivotRow t pc dc vc) = fun x => decide (Scalar.str x = Scalar.str d) := rfl
  rw [hcomp, find?_str_eq_self hd]
  rfl

/-- C5: in a successful pivot the row count is the number of distinct cleaned
entities, the column count is 1 + the number of distinct cleaned categories,
and every (entity, category) cell whose pair was never observed in the cleaned
input holds `0` (the `fillna(0)` of src/app.py line 69). -/
theorem c5_pivot_shape {t : Table} {pc dc vc : String} {P : Table}
    (hok : pivotRC t pc dc vc = .ok P) :
    P.rows.length = ((cleanTriples t pc dc vc).map (·.designator)).dedup.length ∧
    P.header.length = 1 + ((cleanTriples t pc dc vc).map (·.project)).dedup.length ∧
    ∀ d p, d ∈ pivotEnts t pc dc vc → p ∈ pivotCats t pc dc vc →
      (∀ v, (⟨d, p, v⟩ : Triple) ∉ cleanTriples t pc dc vc) →
      tableCell P d p = .num 0 := by
  obtain ⟨_, _, _, _, hcat, rfl⟩ := pivotRC_ok_iff.mp hok
  refine ⟨?_, ?_, ?_⟩
  · show ((pivotEnts t pc dc vc).map (pivotRow t pc dc vc)).length = _
    rw [List.length_map]
    exact (sortStr_perm _).length_eq
  · show (dc :: pivotCats t pc dc vc).length = _
    rw [List.length_cons]
    unfold pivotCats
    rw [(sortStr_perm _).length_eq]
    omega
  · intro d p hd hp hnone
    have hne : dc ≠ p := fun h => hcat (h ▸ hp)
    unfold tableCell
    have hrows : (pivotOk t pc dc vc).rows =
        (pivotEnts t pc dc vc).map (pivotRow t pc dc vc) := rfl
    rw [hrows, find?_rows_pivotOk hd]
    show cellAt (dc :: pivotCats t pc dc vc) (pivotRow t pc dc vc d) p = Scalar.num 0
    rw [pivotRow_cellAt_cat hp hne]
    unfold pivotVal
    rw [lookupVal_eq_zero hnone, truncQ_zero]
    norm_num

/-- C5 witness: shape and zero-fill at the spec's example table (2 distinct
entities, 2 distinct categories; the pair (B, Y) is unobserved). -/
theorem c5_pivot_shape_witness :
    (pivotOk tGood "project" "designator" "volume").rows.length =
      ((cleanTriples tGood "project" "designator" "volume").map (·.designator)).dedup.length ∧
    (pivotOk tGood "project" "designator" "volume").header.length =
      1 + ((cleanTriples tGood "project" "designator" "volume").map (·.project)).dedup.length ∧
    ∀ d p, d ∈ pivotEnts tGood "project" "designator" "volume" →
      p ∈ pivotCats tGood "project" "designator" "volume" →
      (∀ v, (⟨d, p, v⟩ : Triple) ∉ cleanTriples tGood "project" "designator" "volume") →
      tableCell (pivotOk tGood "project" "designator" "volume") d p = .num 0 :=
  c5_pivot_shape (by decide)

/-! ### C6 -/

/-- C6: a successful melt emits no output row whose value is `0` (src/app.py
line 142), and an entity all of whose category cells coerce to `0` in every
input row carrying it contributes no output row at all. -/
theorem c6_melt_zero_dropping {t : Table} {dc : String} {M : Table}
    (hok : meltCR t dc = .ok M) :
    (∀ r ∈ M.rows, r.getD 2 .missing ≠ .num 0) ∧
    (∀ e, (∀ r ∈ t.rows, pyStrip (scalarToStr (cellAt t.header r dc)) = e →
        ∀ p ∈ t.header, p ≠ dc → toNum0 (cellAt t.header r p) = 0) →
      ∀ r ∈ M.rows, r.getD 0 .missing ≠ .str e) := by
  obtain ⟨hdc, hemp, rfl⟩ := meltCR_ok_iff.mp hok
  constructor
  · intro r hr
    obtain ⟨tr, htr, rfl⟩ := List.mem_map.mp hr
    show Scalar.num tr.volume ≠ .num 0
    intro hcontra
    injection hcontra with hv
    have hk : tr ∈ meltKept t dc := (meltSorted_perm_kept t dc).mem_iff.mp htr
    have hnz := (List.mem_filter.mp hk).2
    simp only [decide_eq_true_eq] at hnz
    exact hnz hv
  · intro e he r hr
    obtain ⟨tr, htr, rfl⟩ := List.mem_map.mp hr
    show Scalar.str tr.designator ≠ .str e
    intro hcontra
    injection hcontra with hdes
    have hk : tr ∈ meltKept t dc := (meltSorted_perm_kept t dc).mem_iff.mp htr
    obtain ⟨hraw, hnz⟩ := List.mem_filter.mp hk
    simp only [decide_eq_true_eq] at hnz
    unfold meltRaw at hraw
    rw [List.mem_flatMap] at hraw
    obtain ⟨p, hp, hmem⟩ := hraw
    rw [List.mem_map] at hmem
    obtain ⟨row, hrow, rfl⟩ := hmem
    rw [List.mem_filter] at hp
    obtain ⟨hpheader, hpne⟩ := hp
    simp only [decide_eq_true_eq] at hpne
    exact hnz (he row hrow hdes p hpheader hpne)

/-- A column table in which entity B's only category cell is `0`. -/
def tWZero : Table :=
  ⟨["designator", "P"], [[.str "A", .num 5], [.str "B", .num 0]]⟩

/-- C6 witness: zero-dropping applied to `tWZero`. -/
theorem c6_melt_zero_dropping_witness :
    (∀ r ∈ (meltOk tWZero "designator").rows, r.getD 2 .missing ≠ .num 0) ∧
    (∀ e, (∀ r ∈ tWZero.rows,
        pyStrip (scalarToStr (cellAt tWZero.header r "designator")) = e →
        ∀ p ∈ tWZero.header, p ≠ "designator" →
          toNum0 (cellAt tWZero.header r p) = 0) →
      ∀ r ∈ (meltOk tWZero "designator").rows, r.getD 0 .missing ≠ .str e) :=
  c6_melt_zero_dropping (by decide)

/-! ### C10 -/

/-- A row table whose entity column holds only integers (an int64 column:
`astype(str)` renders `12` as `"12"`). -/
def tNumEnt : Table :=
  ⟨["project", "designator", "volume"],
   [[.str "X", .num 12, .num 5], [.str "X", .num 34, .num 7]]⟩

/-- A row table whose entity column mixes a NaN cell with a string cell (an
object column: `astype(str)` renders NaN as `"nan"`). -/
def tNanEnt : Table :=
  ⟨["project", "designator", "volume"],
   [[.str "X", .missing, .num 7], [.str "X", .str "A", .num 5]]⟩

/-- A row table whose category column holds only integers. -/
def tNumCat : Table :=
  ⟨["project", "designator", "volume"],
   [[.num 12, .str "A", .num 5], [.num 34, .str "A", .num 7]]⟩

/-- A row table whose category column mixes a NaN cell with a string cell. -/
def tNanCat : Table :=
  ⟨["project", "designator", "volume"],
   [[.missing, .str "A", .num 7], [.str "X", .str "A", .num 5]]⟩

/-- A column table whose entity column holds only integers. -/
def tWNumEnt : Table :=
  ⟨["designator", "P"], [[.num 12, .num 5], [.num 34, .num 7]]⟩

/-- A column table whose entity column mixes a NaN cell with a string cell. -/
def tWNanEnt : Table :=
  ⟨["designator", "P"], [[.missing, .num 7], [.str "A", .num 5]]⟩

/-- C10: both operations coerce entity and category cells to strings before
trimming. In the pivot, an integer entity cell `12` becomes the string
`"12"` and a NaN entity cell becomes the literal string `"nan"`; an integer
category cell `12` becomes the category column name `"12"` and a NaN category
cell becomes the category column `"nan"`. In the melt, an integer entity cell
becomes `"12"` and a NaN entity cell becomes `"nan"`. In every case the
coerced string is treated as an ordinary entity or category value: it appears
as an output row or column and nothing is dropped. (Each table realizes its
entity/category column as an int64 column of integers or as an object column
mixing NaN with strings, the configurations under which the per-cell
`scalarToStr` agrees with pandas.) -/
theorem c10_string_coercion :
    pivotRC tNumEnt "project" "designator" "volume" =
      .ok ⟨["designator", "X"], [[.str "12", .num 5], [.str "34", .num 7]]⟩ ∧
    pivotRC tNanEnt "project" "designator" "volume" =
      .ok ⟨["designator", "X"], [[.str "A", .num 5], [.str "nan", .num 7]]⟩ ∧
    pivotRC tNumCat "project" "designator" "volume" =
      .ok ⟨["designator", "12", "34"], [[.str "A", .num 5, .num 7]]⟩ ∧
    pivotRC tNanCat "project" "designator" "volume" =
      .ok ⟨["designator", "X", "nan"], [[.str "A", .num 5, .num 7]]⟩ ∧
    meltCR tWNumEnt "designator" =
      .ok ⟨["designator", "project", "volume"],
        [[.str "12", .str "P", .num 5], [.str "34", .str "P", .num 7]]⟩ ∧
    meltCR tWNanEnt "designator" =
      .ok ⟨["designator", "project", "volume"],
        [[.str "A", .str "P", .num 5], [.str "nan", .str "P", .num 7]]⟩ := by decide

/-! ### C7: pivot of melt of pivot -/

lemma sortStr_dedup_eq_of_mem_iff {l1 l2 : List String} (h : ∀ x, x ∈ l1 ↔ x ∈ l2) :
    sortStr l1.dedup = sortStr l2.dedup := by
  apply List.eq_of_perm_of_sorted ?_ (sortStr_sorted _) (sortStr_sorted _)
  refine (List.perm_ext_iff_of_nodup (sortStr_nodup (List.nodup_dedup _))
    (sortStr_nodup (List.nodup_dedup _))).mpr ?_
  intro a
  rw [mem_sortStr, mem_sortStr, List.mem_dedup, List.mem_dedup]
  exact h a

lemma cleanTriples_meltOk_pivotOk {t : Table} {pc dc vc : String}
    (hcat : dc ∉ pivotCats t pc dc vc) (hdp : dc ≠ "project") (hdv : dc ≠ "volume") :
    cleanTriples (meltOk (pivotOk t pc dc vc) dc) "project" dc "volume" =
      meltSorted (pivotOk t pc dc vc) dc := by
  unfold cleanTriples meltOk
  rw [List.map_map]
  have h : ∀ tr ∈ meltSorted (pivotOk t pc dc vc) dc,
      ((fun r =>
        (⟨pyStrip (scalarToStr (cellAt [dc, "project", "volume"] r dc)),
          pyStrip (scalarToStr (cellAt [dc, "project", "volume"] r "project")),
          toNum0 (cellAt [dc, "project", "volume"] r "volume")⟩ : Triple)) ∘
        (fun tr : Triple =>
          [Scalar.str tr.designator, Scalar.str tr.project, Scalar.num tr.volume])) tr
        = id tr := by
    intro tr htr
    have hk : tr ∈ meltKept (pivotOk t pc dc vc) dc :=
      (meltSorted_perm_kept _ _).mem_iff.mp htr
    obtain ⟨hd, hp, _, _⟩ := (mem_meltKept_pivotOk hcat).mp hk
    obtain ⟨d0, p0, v0⟩ := tr
    show (⟨pyStrip (scalarToStr
        (cellAt (dc :: ["project", "volume"]) (.str d0 :: [.str p0, .num v0]) dc)), _, _⟩ :
        Triple) = _
    rw [cellAt_head]
    rw [cellAt_cons_ne _ _ _ hdp]
    rw [cellAt_cons_ne _ _ _ hdv]
    rw [cellAt_cons_ne _ _ _ (show ("project" : String) ≠ "volume" by decide)]
    rw [cellAt_head, cellAt_head]
    show (⟨pyStrip d0, pyStrip p0, v0⟩ : Triple) = (⟨d0, p0, v0⟩ : Triple)
    rw [pyStrip_of_mem_pivotEnts hd, pyStrip_of_mem_pivotCats hp]
  rw [List.map_congr_left h, List.map_id]

lemma mem_project_kept_iff {t : Table} {pc dc vc : String}
    (hcat : dc ∉ pivotCats t pc dc vc) {x : String} :
    x ∈ (meltKept (pivotOk t pc dc vc) dc).map (·.project) ↔
      x ∈ pivotCats t pc dc vc ∧
        ∃ d ∈ pivotEnts t pc dc vc, pivotVal t pc dc vc d x ≠ 0 := by
  rw [List.mem_map]
  constructor
  · rintro ⟨tr, htr, rfl⟩
    obtain ⟨hd, hp, hv, hnz⟩ := (mem_meltKept_pivotOk hcat).mp htr
    refine ⟨hp, tr.designator, hd, fun h0 => hnz ?_⟩
    rw [hv, h0]
    norm_num
  · rintro ⟨hx, d, hd, hnz⟩
    refine ⟨⟨d, x, ((pivotVal t pc dc vc d x : ℤ) : ℚ)⟩, ?_, rfl⟩
    rw [mem_meltKept_pivotOk hcat]
    exact ⟨hd, hx, rfl, by simpa using hnz⟩

lemma mem_designator_kept_iff {t : Table} {pc dc vc : String}
    (hcat : dc ∉ pivotCats t pc dc vc) {x : String} :
    x ∈ (meltKept (pivotOk t pc dc vc) dc).map (·.designator) ↔
      x ∈ pivotEnts t pc dc vc ∧
        ∃ p ∈ pivotCats t pc dc vc, pivotVal t pc dc vc x p ≠ 0 := by
  rw [List.mem_map]
  constructor
  · rintro ⟨tr, htr, rfl⟩
    obtain ⟨hd, hp, hv, hnz⟩ := (mem_meltKept_pivotOk hcat).mp htr
    refine ⟨hd, tr.project, hp, fun h0 => hnz ?_⟩
    rw [hv, h0]
    norm_num
  · rintro ⟨hx, p, hp, hnz⟩
    refine ⟨⟨x, p, ((pivotVal t pc dc vc x p : ℤ) : ℚ)⟩, ?_, rfl⟩
    rw [mem_meltKept_pivotOk hcat]
    exact ⟨hx, hp, rfl, by simpa using hnz⟩

lemma pivotCats_meltOk {t : Table} {pc dc vc : String}
    (hcat : dc ∉ pivotCats t pc dc vc)
    (hcol : ∀ p ∈ pivotCats t pc dc vc,
      ∃ d ∈ pivotEnts t pc dc vc, pivotVal t pc dc vc d p ≠ 0)
    (hdp : dc ≠ "project") (hdv : dc ≠ "volume") :
    pivotCats (meltOk (pivotOk t pc dc vc) dc) "project" dc "volume" =
      pivotCats t pc dc vc := by
  show sortStr _ = sortStr _
  rw [cleanTriples_meltOk_pivotOk hcat hdp hdv]
  apply sortStr_dedup_eq_of_mem_iff
  intro x
  rw [((meltSorted_perm_kept (pivotOk t pc dc vc) dc).map (·.project)).mem_iff,
    mem_project_kept_iff hcat]
  constructor
  · rintro ⟨hx, _⟩
    exact mem_pivotCats.mp hx
  · intro hx
    have hx' : x ∈ pivotCats t pc dc vc := mem_pivotCats.mpr hx
    exact ⟨hx', hcol x hx'⟩

lemma pivotEnts_meltOk {t : Table} {pc dc vc : String}
    (hcat : dc ∉ pivotCats t pc dc vc)
    (hrow : ∀ d ∈ pivotEnts t pc dc vc,
      ∃ p ∈ pivotCats t pc dc vc, pivotVal t pc dc vc d p ≠ 0)
    (hdp : dc ≠ "project") (hdv : dc ≠ "volume") :
    pivotEnts (meltOk (pivotOk t pc dc vc) dc) "project" dc "volume" =
      pivotEnts t pc dc vc := by
  show sortStr _ = sortStr _
  rw [cleanTriples_meltOk_pivotOk hcat hdp hdv]
  apply sortStr_dedup_eq_of_mem_iff
  intro x
  rw [((meltSorted_perm_kept (pivotOk t pc dc vc) dc).map (·.designator)).mem_iff,
    mem_designator_kept_iff hcat]
  constructor
  · rintro ⟨hx, _⟩
    exact mem_pivotEnts.mp hx
  · intro hx
    have hx' : x ∈ pivotEnts t pc dc vc := mem_pivotEnts.mpr hx
    exact ⟨hx', hrow x hx'⟩

lemma pivotPairs_meltOk_nodup {t : Table} {pc dc vc : String}
    (hcat : dc ∉ pivotCats t pc dc vc) (hdp : dc ≠ "project") (hdv : dc ≠ "volume") :
    (pivotPairs (meltOk (pivotOk t pc dc vc) dc) "project" dc "volume").Nodup := by
  unfold pivotPairs
  rw [cleanTriples_meltOk_pivotOk hcat hdp hdv]
  exact ((meltSorted_perm_kept _ _).map _).nodup_iff.mpr (meltKept_pivotOk_pairs_nodup hcat)

lemma pivotVal_meltOk {t : Table} {pc dc vc : String}
    (hcat : dc ∉ pivotCats t pc dc vc) (hdp : dc ≠ "project") (hdv : dc ≠ "volume")
    {d p : String} (hd : d ∈ pivotEnts t pc dc vc) (hp : p ∈ pivotCats t pc dc vc) :
    pivotVal (meltOk (pivotOk t pc dc vc) dc) "project" dc "volume" d p =
      pivotVal t pc dc vc d p := by
  have hSnodup : ((meltSorted (pivotOk t pc dc vc) dc).map
      fun tr => (tr.designator, tr.project)).Nodup :=
    ((meltSorted_perm_kept _ _).map _).nodup_iff.mpr (meltKept_pivotOk_pairs_nodup hcat)
  suffices h : lookupVal (meltSorted (pivotOk t pc dc vc) dc) d p =
      ((pivotVal t pc dc vc d p : ℤ) : ℚ) by
    show truncQ (lookupVal (cleanTriples (meltOk (pivotOk t pc dc vc) dc)
      "project" dc "volume") d p) = _
    rw [cleanTriples_meltOk_pivotOk hcat hdp hdv, h, truncQ_intCast]
  by_cases h0 : pivotVal t pc dc vc d p = 0
  · have hnone : ∀ v, (⟨d, p, v⟩ : Triple) ∉ meltSorted (pivotOk t pc dc vc) dc := by
      intro v hv
      have hk := (meltSorted_perm_kept _ _).mem_iff.mp hv
      obtain ⟨_, _, hveq, hvnz⟩ := (mem_meltKept_pivotOk hcat).mp hk
      apply hvnz
      rw [hveq]
      show ((pivotVal t pc dc vc d p : ℤ) : ℚ) = 0
      rw [h0]
      norm_num
    rw [lookupVal_eq_zero hnone, h0]
    norm_num
  · have hmem : (⟨d, p, ((pivotVal t pc dc vc d p : ℤ) : ℚ)⟩ : Triple) ∈
        meltSorted (pivotOk t pc dc vc) dc := by
      apply (meltSorted_perm_kept _ _).mem_iff.mpr
      rw [mem_meltKept_pivotOk hcat]
      exact ⟨hd, hp, rfl, by simpa using h0⟩
    exact lookupVal_eq_of_mem hSnodup hmem

/-- A row table whose single observation has value `0`: its pivot output has
an all-zero row and an all-zero column. -/
def tZeroRow : Table :=
  ⟨["project", "designator", "volume"],
   [[.str "X", .str "A", .num 0]]⟩

/-- C7 counterexample: for the table with the single observation (A, X, 0),
pivot yields a 1 × 2 table whose only cell is `0`; melting it drops the zero
row, so pivoting again yields an empty 0 × 1 table, not the original pivot
output — the dense matrix is not a fixed point when a row or column is all
zeros. -/
theorem c7_counterexample :
    pivotRC tZeroRow "project" "designator" "volume" =
      .ok ⟨["designator", "X"], [[.str "A", .num 0]]⟩ ∧
    ((pivotRC tZeroRow "project" "designator" "volume").bind
        (fun p => meltCR p "designator")).bind
      (fun m => pivotRC m "project" "designator" "volume") =
      .ok ⟨["designator"], []⟩ ∧
    (⟨["designator"], []⟩ : Table) ≠ ⟨["designator", "X"], [[.str "A", .num 0]]⟩ := by decide

/-- C7 (amended): when the pivot succeeds on a nonempty table and every row
and every column of its output contains at least one nonzero cell,
`pivotToColumns (meltToRows (pivotToColumns T))` returns exactly
`pivotToColumns T`; with an all-zero row or column the melt drops it and the
fixed-point equation fails. -/
theorem c7_pivot_fixed_point {t : Table} {pc dc vc : String} {P : Table}
    (hok : pivotRC t pc dc vc = .ok P) (hrows : t.rows ≠ [])
    (hdp : dc ≠ "project") (hdv : dc ≠ "volume")
    (hrow : ∀ d ∈ pivotEnts t pc dc vc,
      ∃ p ∈ pivotCats t pc dc vc, pivotVal t pc dc vc d p ≠ 0)
    (hcol : ∀ p ∈ pivotCats t pc dc vc,
      ∃ d ∈ pivotEnts t pc dc vc, pivotVal t pc dc vc d p ≠ 0) :
    ∃ M, meltCR P dc = .ok M ∧ pivotRC M "project" dc "volume" = .ok P := by
  obtain ⟨hpc, hdc, hvc, hnd, hcat, rfl⟩ := pivotRC_ok_iff.mp hok
  refine ⟨meltOk (pivotOk t pc dc vc) dc,
    meltCR_pivotOk_ok hcat (pivotCats_ne_nil hrows), ?_⟩
  rw [pivotRC_ok_iff]
  have hcats := pivotCats_meltOk hcat hcol hdp hdv
  have hents := pivotEnts_meltOk hcat hrow hdp hdv
  have hvals : ∀ d ∈ pivotEnts t pc dc vc, ∀ p ∈ pivotCats t pc dc vc,
      pivotVal (meltOk (pivotOk t pc dc vc) dc) "project" dc "volume" d p =
        pivotVal t pc dc vc d p :=
    fun d hd p hp => pivotVal_meltOk hcat hdp hdv hd hp
  have hnodup := pivotPairs_meltOk_nodup (t := t) hcat hdp hdv
  have hhead : (meltOk (pivotOk t pc dc vc) dc).header = [dc, "project", "volume"] := rfl
  generalize meltOk (pivotOk t pc dc vc) dc = M at hcats hents hvals hnodup hhead ⊢
  refine ⟨?_, ?_, ?_, hnodup, ?_, ?_⟩
  · rw [hhead]
    simp
  · rw [hhead]
    simp
  · rw [hhead]
    simp
  · rw [hcats]
    exact hcat
  · unfold pivotOk pivotRow
    rw [hcats, hents]
    congr 1
    apply List.map_congr_left
    intro d hd
    congr 1
    apply List.map_congr_left
    intro p hp
    rw [hvals d hd p hp]

/-- C7 witness: the amended fixed-point statement applied to the spec's
example table, whose pivot output has no all-zero row or column. -/
theorem c7_pivot_fixed_point_witness :
    ∃ M, meltCR (pivotOk tGood "project" "designator" "volume") "designator" = .ok M ∧
      pivotRC M "project" "designator" "volume" =
        .ok (pivotOk tGood "project" "designator" "volume") :=
  @c7_pivot_fixed_point tGood "project" "designator" "volume"
    (pivotOk tGood "project" "designator" "volume") (by decide) (by decide) (by decide)
    (by decide) (by decide) (by decide)

end PivotPro
